import Mathlib

/-!
Verification of the annotation/rendering core of the `rqda-dev-py` repository
(`src/app.py`, `src/db.py`): the highlight renderer, the document store, the
segment store and the preview policy, shallowly embedded in Lean.

Text is modelled as `List Char` (Python `str`), machine integers as `Int`/`Nat`
(Python ints are unbounded, so no wrap-around is modelled), the MySQL tables as
Lean lists with explicit auto-increment counters, and raising of Python
exceptions as `Except`-style results paired with the (unchanged) state.
-/

namespace RQDA

/-- One character of Python `html.escape(s)` (the default `quote=True` used by
`app.py`): `&`, `<`, `>`, `"` and `'` become their HTML entities, every other
character is kept.  CPython implements this as five sequential `str.replace`
calls, which is equivalent to this character-wise map because no replacement
output is itself rewritten by a later replace. -/
def escapeChar (c : Char) : List Char :=
  if c = '&' then "&amp;".data
  else if c = '<' then "&lt;".data
  else if c = '>' then "&gt;".data
  else if c = '"' then "&quot;".data
  else if c.toNat = 39 then "&#x27;".data
  else [c]

/-- Python `html.escape` on a whole string. -/
def htmlEscape (s : List Char) : List Char :=
  s.flatMap escapeChar

/-- A segment as consumed by `highlight_text` in `src/app.py`: a dict with
`start_offset`, `end_offset` and (optionally) `code_id`.  `code_id = none`
models a dict without the key, for which `seg.get("code_id", "")` yields the
falsy `""`. -/
structure Seg where
  start_offset : Int
  end_offset : Int
  code_id : Option Int
deriving DecidableEq

/-- The sort order used by `highlight_text`:
`sorted(segments, key=lambda s: (s["start_offset"], s["end_offset"]))`,
i.e. lexicographic on `(start_offset, end_offset)`. -/
def segRel (a b : Seg) : Prop :=
  a.start_offset < b.start_offset ∨
    (a.start_offset = b.start_offset ∧ a.end_offset ≤ b.end_offset)

instance : DecidableRel segRel := fun a b => by
  unfold segRel; infer_instance

instance : IsTotal Seg segRel := ⟨by
  intro a b
  unfold segRel
  omega⟩

instance : IsTrans Seg segRel := ⟨by
  intro a b c hab hbc
  unfold segRel at *
  omega⟩

/-- Python `sorted` is a stable ascending sort; `List.insertionSort` with the
same lexicographic order is stable in exactly the same sense. -/
def sortSegments (segments : List Seg) : List Seg :=
  List.insertionSort segRel segments

/-- `s = max(0, min(seg["start_offset"], len(text)))` from `highlight_text`. -/
def clampStart (n : Nat) (seg : Seg) : Nat :=
  (max 0 (min seg.start_offset (n : Int))).toNat

/-- `e = max(s, min(seg["end_offset"], len(text)))` from `highlight_text`. -/
def clampEnd (n : Nat) (seg : Seg) : Nat :=
  (max ((clampStart n seg : Nat) : Int) (min seg.end_offset (n : Int))).toNat

/-- One entry of the `parts` list built by `highlight_text`: either a plain
escaped run of text, or an escaped run wrapped in `<mark ...></mark>`. -/
inductive Part where
  | plain (s : List Char)
  | marked (code_id : Option Int) (s : List Char)
deriving DecidableEq

/-- `title_attr = f'title="Code ID: {code_id}"' if code_id else ''`:
the attribute is emitted only when `seg.get("code_id", "")` is truthy
(present and nonzero). -/
def titleAttr (code_id : Option Int) : List Char :=
  match code_id with
  | none => []
  | some i => if i = 0 then [] else "title=\"Code ID: ".data ++ (toString i).data ++ "\"".data

/-- The string appended to `parts` for one entry:
plain runs verbatim, marked runs as `f"<mark {title_attr}>" + ... + "</mark>"`. -/
def Part.render : Part → List Char
  | .plain s => s
  | .marked cid s => "<mark ".data ++ titleAttr cid ++ ">".data ++ s ++ "</mark>".data

/-- The text content of one part, i.e. the part with its `<mark>` wrapper
removed. -/
def Part.content : Part → List Char
  | .plain s => s
  | .marked _ s => s

/-- The `for seg in sorted_segments:` sweep of `highlight_text`, producing the
`parts` list.  `last` is the cursor; for each segment the code computes the
clamped `s` and `e`, skips the segment when `s < last`, otherwise emits the
escaped plain run `text[last:s]` (only when nonempty), the marked escaped run
`text[s:e]`, and advances `last = e`.  After the loop the trailing run
`text[last:]` is appended when nonempty. -/
def sweep (text : List Char) (last : Nat) : List Seg → List Part
  | [] =>
      if last < text.length then [Part.plain (htmlEscape (text.drop last))] else []
  | seg :: rest =>
      if clampStart text.length seg < last then
        sweep text last rest
      else
        (if last < clampStart text.length seg then
          [Part.plain (htmlEscape ((text.drop last).take (clampStart text.length seg - last)))]
        else [])
        ++ [Part.marked seg.code_id
              (htmlEscape ((text.drop (clampStart text.length seg)).take
                (clampEnd text.length seg - clampStart text.length seg)))]
        ++ sweep text (clampEnd text.length seg) rest

/-- The `parts` list produced by `highlight_text` (for the early-return empty
case, the whole escaped text as a single plain part). -/
def highlightParts (text : List Char) (segments : List Seg) : List Part :=
  if segments.isEmpty then [Part.plain (htmlEscape text)]
  else sweep text 0 (sortSegments segments)

/-- `highlight_text(text, segments)` from `src/app.py`: returns
`html.escape(text)` when `segments` is empty, otherwise `"".join(parts)` for
the swept parts. -/
def highlight_text (text : List Char) (segments : List Seg) : List Char :=
  if segments.isEmpty then htmlEscape text
  else ((sweep text 0 (sortSegments segments)).map Part.render).flatten

/-- C1: on `"The quick brown fox"` with segments `(4,9)` and `(6,11)`, the
renderer highlights only `(4,9)` (`"quick"`): the second segment's clamped
start `6` is strictly below the cursor `9` left by the first, so it is skipped
entirely, and everything outside `(4,9)` is emitted as plain escaped text. -/
theorem highlight_overlap_first_sorted_wins :
    highlightParts "The quick brown fox".data [⟨4, 9, none⟩, ⟨6, 11, none⟩]
      = [Part.plain "The ".data, Part.marked none "quick".data,
         Part.plain " brown fox".data]
    ∧ highlight_text "The quick brown fox".data [⟨4, 9, none⟩, ⟨6, 11, none⟩]
      = "The <mark >quick</mark> brown fox".data := by
  constructor <;> rfl

/-- C8 counterexample: for text `"abc"` and the fully out-of-bounds segment
`(10, 15)`, the output of `highlight_text` is NOT exactly the escaped text
`"abc"`: the collapsed segment still emits an empty `<mark ></mark>` element
after it. -/
theorem highlight_out_of_bounds_not_plain :
    highlight_text "abc".data [⟨10, 15, none⟩] ≠ htmlEscape "abc".data := by
  decide

/-- C8 amended: clamping collapses `(10, 15)` on `"abc"` to `start = end = 3`;
the rendering is the escaped full text `"abc"` followed by an empty highlight
marker `<mark ></mark>` — no visible highlighted text and no error. -/
theorem highlight_out_of_bounds_collapses :
    clampStart ("abc".data).length ⟨10, 15, none⟩ = 3
    ∧ clampEnd ("abc".data).length ⟨10, 15, none⟩ = 3
    ∧ highlightParts "abc".data [⟨10, 15, none⟩]
        = [Part.plain "abc".data, Part.marked none []]
    ∧ highlight_text "abc".data [⟨10, 15, none⟩] = "abc<mark ></mark>".data := by
  refine ⟨by decide, by decide, by rfl, by rfl⟩

/-! Helper lemmas for the sweep invariant (claim C10). -/

theorem htmlEscape_append (a b : List Char) :
    htmlEscape (a ++ b) = htmlEscape a ++ htmlEscape b := by
  simp [htmlEscape]

theorem clampStart_le (n : Nat) (seg : Seg) : clampStart n seg ≤ n := by
  unfold clampStart
  omega

theorem clampStart_le_clampEnd (n : Nat) (seg : Seg) :
    clampStart n seg ≤ clampEnd n seg := by
  unfold clampEnd
  omega

theorem clampEnd_le (n : Nat) (seg : Seg) : clampEnd n seg ≤ n := by
  unfold clampEnd clampStart
  omega

/-- Splitting a suffix of a list at an intermediate index. -/
theorem drop_eq_take_append_drop (l : List Char) (a b : Nat) (hab : a ≤ b) :
    l.drop a = (l.drop a).take (b - a) ++ l.drop b := by
  conv_lhs => rw [← List.take_append_drop (b - a) (l.drop a)]
  rw [List.drop_drop]
  congr 2
  omega

/-- Invariant of the rendering sweep: from any cursor position `last` within
the text, the concatenated text content of the remaining parts is exactly the
escaped suffix `text[last:]`, whatever segments remain.  Skipped segments
contribute nothing; emitted segments cover `[last, e)` contiguously. -/
theorem sweep_content (text : List Char) (segs : List Seg) :
    ∀ last : Nat, last ≤ text.length →
      ((sweep text last segs).map Part.content).flatten = htmlEscape (text.drop last) := by
  induction segs with
  | nil =>
      intro last h
      unfold sweep
      by_cases hlt : last < text.length
      · simp [hlt, Part.content]
      · have hEq : last = text.length := by omega
        simp [hlt, hEq, htmlEscape]
  | cons seg rest ih =>
      intro last h
      unfold sweep
      by_cases hskip : clampStart text.length seg < last
      · simpa [hskip] using ih last h
      · have hs : last ≤ clampStart text.length seg := by omega
        have hse : clampStart text.length seg ≤ clampEnd text.length seg :=
          clampStart_le_clampEnd _ _
        have hel : clampEnd text.length seg ≤ text.length := clampEnd_le _ _
        have ihe := ih (clampEnd text.length seg) hel
        have hsplit1 : text.drop last
            = (text.drop last).take (clampStart text.length seg - last)
              ++ text.drop (clampStart text.length seg) :=
          drop_eq_take_append_drop text last _ hs
        have hsplit2 : text.drop (clampStart text.length seg)
            = (text.drop (clampStart text.length seg)).take
                (clampEnd text.length seg - clampStart text.length seg)
              ++ text.drop (clampEnd text.length seg) :=
          drop_eq_take_append_drop text _ _ hse
        by_cases hlt : last < clampStart text.length seg
        · simp only [hskip, if_false, hlt, if_true, List.map_append, List.map_cons,
            List.map_nil, List.flatten_append, List.flatten_cons, List.flatten_nil,
            Part.content, List.append_nil, ihe]
          rw [List.append_assoc, ← htmlEscape_append, ← hsplit2, ← htmlEscape_append,
            ← hsplit1]
        · have hEq : clampStart text.length seg = last := by omega
          simp only [hskip, if_false, hlt, if_true, List.map_append, List.map_cons,
            List.map_nil, List.flatten_append, List.flatten_cons, List.flatten_nil,
            Part.content, List.append_nil, ihe, List.nil_append]
          rw [← htmlEscape_append, ← hsplit2, hEq]

/-- C10: for every text and every segment list with arbitrary integer offsets,
`highlight_text` is total (a Lean function: no exception is possible), its
output is exactly the rendering of its parts, and concatenating the text
content of those parts with the `<mark>` wrappers removed yields the
HTML-escaped input text — no document character is dropped, duplicated or
reordered by highlighting. -/
theorem highlight_text_content_preserved (text : List Char) (segments : List Seg) :
    ((highlightParts text segments).map Part.content).flatten = htmlEscape text
    ∧ highlight_text text segments
        = ((highlightParts text segments).map Part.render).flatten := by
  constructor
  · unfold highlightParts
    by_cases hemp : segments.isEmpty
    · simp [hemp, Part.content]
    · have := sweep_content text (sortSegments segments) 0 (Nat.zero_le _)
      simpa [hemp] using this
  · unfold highlight_text highlightParts
    by_cases hemp : segments.isEmpty
    · simp [hemp, Part.render]
    · simp [hemp]

/-!
The database layer of `src/db.py`.  Each MySQL table is a list of rows; the
`AUTO_INCREMENT` counters are carried explicitly, and `created_at` timestamps
are modelled by a strictly increasing logical clock (each insert gets a fresh
tick).  A Python function that raises is modelled as returning an error value
paired with the unchanged database state (an exception inside `engine.begin()`
rolls the transaction back, so the state is unchanged on every error path).
-/

/-- A row of the `documents` table (the fields the core reads and writes). -/
structure DocRow where
  id : Nat
  filename : String
  content : List Char
  content_hash : String
  file_size : Nat
  char_count : Nat
deriving DecidableEq

/-- A row of the `codes` table. -/
structure CodeRow where
  id : Nat
  name : String
  description : Option String
  color : Option String
deriving DecidableEq

/-- A row of the `coded_segments` table. -/
structure SegRow where
  id : Nat
  document_id : Nat
  code_id : Nat
  start_offset : Int
  end_offset : Int
  selected_text : List Char
  created_at : Nat
deriving DecidableEq

/-- The whole backing store. -/
structure DB where
  documents : List DocRow
  codes : List CodeRow
  segments : List SegRow
  next_doc_id : Nat
  next_code_id : Nat
  next_seg_id : Nat
  clock : Nat
deriving DecidableEq

/-- `len(content.encode('utf-8'))`: the UTF-8 byte length of a text. -/
def utf8Len (l : List Char) : Nat :=
  (l.map Char.utf8Size).sum

/-- `MAX_FILE_SIZE = 50 * 1024 * 1024` from `src/app.py`. -/
def MAX_FILE_SIZE : Nat := 50 * 1024 * 1024

/-- `MAX_PREVIEW_SIZE = 1024 * 1024` from `src/app.py`. -/
def MAX_PREVIEW_SIZE : Nat := 1024 * 1024

/-- The `ON DUPLICATE KEY UPDATE` clause of `upsert_document`, applied to one
row: a row whose `filename` matches the unique key gets its `content`,
`content_hash`, `file_size` and `char_count` replaced (and `updated_at`
refreshed, not modelled); every other row is untouched. -/
def overwriteDoc (hash : List Char → String) (filename : String)
    (content : List Char) (r : DocRow) : DocRow :=
  if r.filename == filename then
    { r with content := content, content_hash := hash content,
             file_size := utf8Len content, char_count := content.length }
  else r

/-- `upsert_document(engine, filename, content)` from `src/db.py`:
`INSERT ... ON DUPLICATE KEY UPDATE` on the unique key `filename`.  When no row
with the filename exists the insert creates one with a fresh auto-increment id
(returned via `lastrowid`); when one exists, the duplicate-key update
overwrites it in place and the id is re-read with
`SELECT id FROM documents WHERE filename = ...` (`scalar_one`, modelled by
`getD 0` on a lookup that provably succeeds).  `hashlib.sha256(...).hexdigest()`
is an external primitive, modelled as the uninterpreted parameter `hash`. -/
def upsert_document (hash : List Char → String) (db : DB) (filename : String)
    (content : List Char) : Nat × DB :=
  match db.documents.find? (fun r => r.filename == filename) with
  | none =>
      let id := db.next_doc_id
      (id, { db with
              documents := db.documents
                ++ [⟨id, filename, content, hash content, utf8Len content, content.length⟩],
              next_doc_id := id + 1 })
  | some _ =>
      let docs := db.documents.map (overwriteDoc hash filename content)
      (((docs.find? (fun r => r.filename == filename)).map (fun r => r.id)).getD 0,
        { db with documents := docs })

/-- `get_document(engine, doc_id)`: full row by id, `None` when absent. -/
def get_document (db : DB) (doc_id : Nat) : Option DocRow :=
  db.documents.find? (fun r => r.id == doc_id)

/-- `get_document_preview(engine, doc_id, max_chars)`:
`SELECT LEFT(content, max_chars)`, or `""` when the row is absent. -/
def get_document_preview (db : DB) (doc_id : Nat) (max_chars : Nat) : List Char :=
  match db.documents.find? (fun r => r.id == doc_id) with
  | some r => r.content.take max_chars
  | none => []

/-- The errors `insert_segment` raises (all as Python `ValueError`). -/
inductive SegError where
  | invalidRange (start_offset end_offset : Int)
  | emptyText
  | documentNotFound (document_id : Nat)
  | codeNotFound (code_id : Nat)
deriving DecidableEq

/-- The message strings of the `ValueError`s raised by `insert_segment`. -/
def SegError.message : SegError → String
  | .invalidRange s e => "Invalid offset range: " ++ toString s ++ "-" ++ toString e
  | .emptyText => "Selected text cannot be empty"
  | .documentNotFound i => "Document " ++ toString i ++ " not found"
  | .codeNotFound i => "Code " ++ toString i ++ " not found"

/-- Python `str.isspace`, the character set `str.strip()` removes: the ASCII
whitespace `\t` `\n` `\v` `\f` `\r` and space, the separators `\x1c`-`\x1f`,
next line U+0085, no-break space U+00A0, ogham space mark U+1680, the Unicode
spaces U+2000-U+200A, the line and paragraph separators U+2028 and U+2029,
narrow no-break space U+202F, medium mathematical space U+205F, and
ideographic space U+3000. -/
def isPySpace (c : Char) : Bool :=
  (9 ≤ c.toNat && c.toNat ≤ 13) || c.toNat = 32
    || (28 ≤ c.toNat && c.toNat ≤ 31)
    || c.toNat = 0x85 || c.toNat = 0xa0 || c.toNat = 0x1680
    || (0x2000 ≤ c.toNat && c.toNat ≤ 0x200a)
    || c.toNat = 0x2028 || c.toNat = 0x2029
    || c.toNat = 0x202f || c.toNat = 0x205f || c.toNat = 0x3000

/-- Python `selected_text.strip()`. -/
def pyStrip (l : List Char) : List Char :=
  ((l.dropWhile isPySpace).reverse.dropWhile isPySpace).reverse

/-- The `uniq_segment` unique key: exact match on
`(document_id, code_id, start_offset, end_offset)`. -/
def segKeyMatch (document_id code_id : Nat) (s e : Int) (r : SegRow) : Bool :=
  r.document_id == document_id && r.code_id == code_id
    && r.start_offset == s && r.end_offset == e

/-- `insert_segment(engine, document_id, code_id, start, end, selected_text)`
from `src/db.py`: validates the offsets (`start < 0 or end <= start`) and the
trimmed text before touching the database, then inside one transaction checks
that the document and the code exist (raising `ValueError` naming the missing
one), then attempts the `INSERT`.  An `IntegrityError` on `uniq_segment` (which
fires exactly when a row with the same key already exists) is resolved by
selecting and returning the existing row's id; otherwise a fresh auto-increment
id is assigned and returned.  The schema stamps `created_at` with
`DEFAULT CURRENT_TIMESTAMP`, a second-granularity clock: the strictly
increasing logical clock used here is an idealization (it can only be
monotone non-strict in MySQL), so database states with tied `created_at`
stamps — two inserts within the same second — are also admitted and are
modelled directly where ordering claims depend on them. -/
def insert_segment (db : DB) (document_id code_id : Nat) (start end_ : Int)
    (selected_text : List Char) : Except SegError Nat × DB :=
  if start < 0 ∨ end_ ≤ start then (.error (.invalidRange start end_), db)
  else if pyStrip selected_text = [] then (.error .emptyText, db)
  else if (db.documents.find? (fun r => r.id == document_id)).isNone then
    (.error (.documentNotFound document_id), db)
  else if (db.codes.find? (fun r => r.id == code_id)).isNone then
    (.error (.codeNotFound code_id), db)
  else
    match db.segments.find? (segKeyMatch document_id code_id start end_) with
    | some r => (.ok r.id, db)
    | none =>
        let id := db.next_seg_id
        (.ok id,
          { db with
              segments := db.segments
                ++ [⟨id, document_id, code_id, start, end_, selected_text, db.clock⟩],
              next_seg_id := id + 1,
              clock := db.clock + 1 })

/-- One row of the result set of `list_segments`: the segment columns joined
with its code's `name` and `color`. -/
structure SegView where
  id : Nat
  document_id : Nat
  code_id : Nat
  start_offset : Int
  end_offset : Int
  selected_text : List Char
  created_at : Nat
  code_name : String
  code_color : Option String
deriving DecidableEq

/-- The `ORDER BY cs.start_offset ASC, cs.created_at ASC` sort order. -/
def viewRel (a b : SegView) : Prop :=
  a.start_offset < b.start_offset ∨
    (a.start_offset = b.start_offset ∧ a.created_at ≤ b.created_at)

instance : DecidableRel viewRel := fun a b => by
  unfold viewRel; infer_instance

instance : IsTotal SegView viewRel := ⟨by
  intro a b
  unfold viewRel
  omega⟩

instance : IsTrans SegView viewRel := ⟨by
  intro a b c hab hbc
  unfold viewRel at *
  omega⟩

/-- The `JOIN codes c ON cs.code_id = c.id` step for a single segment row:
`none` when no code row matches (the inner join then drops the row). -/
def joinRow (codes : List CodeRow) (s : SegRow) : Option SegView :=
  (codes.find? (fun c => c.id == s.code_id)).map (fun c =>
    ⟨s.id, s.document_id, s.code_id, s.start_offset, s.end_offset,
      s.selected_text, s.created_at, c.name, c.color⟩)

/-- `list_segments(engine, document_id)` from `src/db.py`: the document's
segment rows inner-joined with `codes`, ordered by
`start_offset ASC, created_at ASC`.  SQL leaves the relative order of rows
that tie on both keys unspecified; this stable insertion sort realizes one
admissible order (storage order on full-key ties), while the contract the
engine actually guarantees is `list_segments_spec`. -/
def list_segments (db : DB) (document_id : Nat) : List SegView :=
  List.insertionSort viewRel
    ((db.segments.filter (fun s => s.document_id == document_id)).filterMap
      (joinRow db.codes))

/-- The `ORDER BY` contract of the `list_segments` query: an admissible result
set is any permutation of the joined rows of the document that is sorted with
respect to the non-strict `(start_offset, created_at)` lexicographic order —
the engine promises nothing more when rows tie on both sort keys. -/
def list_segments_spec (db : DB) (document_id : Nat) (out : List SegView) : Prop :=
  out.Perm ((db.segments.filter (fun s => s.document_id == document_id)).filterMap
    (joinRow db.codes))
  ∧ out.Pairwise viewRel

/-- The fixed suffix `get_text_for_display` appends to a truncated preview. -/
def truncationNotice : List Char :=
  "\n\n[... Document truncated for display. Full document is saved in database ...]".data

/-- `get_text_for_display(doc_id)` from `src/app.py`: returns
`(text_content, is_preview)`.  Small documents are returned whole; documents
longer than `MAX_PREVIEW_SIZE` are served as the `MAX_PREVIEW_SIZE`-character
preview followed by a fixed truncation notice, flagged as preview. -/
def get_text_for_display (db : DB) (doc_id : Nat) : List Char × Bool :=
  match get_document db doc_id with
  | none => ("Document not found".data, false)
  | some doc =>
      if doc.content.length ≤ MAX_PREVIEW_SIZE then (doc.content, false)
      else (get_document_preview db doc_id MAX_PREVIEW_SIZE ++ truncationNotice, true)

/-- The selection payload `{start, end, text}` supplied by the UI. -/
structure Selection where
  start : Int
  end_ : Int
  text : List Char
deriving DecidableEq

/-- Outcome of the `_apply_code` handler: the success or error status shown. -/
inductive ApplyResult where
  | applied (chars : Nat)
  | failed (msg : String)
deriving DecidableEq

/-- The `_apply_code` handler from `src/app.py`, with its guards in source
order: missing selection, missing code choice, missing document, the preview
flag (which rejects before any bounds check or insert), the handler's own
bounds check (`start < 0 or end < start`), then `insert_segment`, whose raised
`ValueError` is caught and shown as an error status. -/
def apply_code (db : DB) (sel : Option Selection) (code_id : Option Nat)
    (doc_id : Option Nat) (is_preview : Bool) : ApplyResult × DB :=
  match sel with
  | none => (.failed "Please select text first", db)
  | some sel =>
    match code_id with
    | none => (.failed "Please select a code", db)
    | some code_id =>
      match doc_id with
      | none => (.failed "No document loaded", db)
      | some doc_id =>
        if is_preview then
          (.failed "Cannot code segments in preview mode. Please use smaller documents.", db)
        else if sel.start < 0 ∨ sel.end_ < sel.start then
          (.failed "Invalid selection bounds", db)
        else
          match insert_segment db doc_id code_id sel.start sel.end_ sel.text with
          | (.ok _, db2) => (.applied sel.text.length, db2)
          | (.error e, db2) => (.failed ("Error applying code: " ++ e.message), db2)

/-- The error raised by `validate_file_size` in `src/app.py`. -/
inductive UploadError where
  | fileTooLarge (size max_size : Nat)
deriving DecidableEq

/-- `validate_file_size(file_path, max_size)` from `src/app.py`: rejects a
file whose on-disk byte size exceeds the ceiling. -/
def validate_file_size (size max_size : Nat) : Except UploadError Unit :=
  if size > max_size then .error (.fileTooLarge size max_size) else .ok ()

/-- The `_on_upload` flow of `src/app.py` restricted to the document store:
`sniff_text` first calls `validate_file_size` (with `MAX_FILE_SIZE`), and only
after it passes is the decoded text handed to `upsert_document`. -/
def handle_upload (hash : List Char → String) (db : DB) (filename : String)
    (file_size : Nat) (content : List Char) : Except UploadError Nat × DB :=
  match validate_file_size file_size MAX_FILE_SIZE with
  | .error e => (.error e, db)
  | .ok _ =>
      let r := upsert_document hash db filename content
      (.ok r.1, r.2)

/-! Concrete stores used to instantiate the theorems with hypotheses. -/

/-- An empty backing store (fresh schema, no rows). -/
def emptyDB : DB :=
  { documents := [], codes := [], segments := [],
    next_doc_id := 1, next_code_id := 1, next_seg_id := 1, clock := 0 }

/-- A store holding one document and one code, and no segments yet. -/
def oneDocDB : DB :=
  { documents := [⟨1, "a.txt", "hello world".data, "h", 11, 11⟩],
    codes := [⟨1, "Theme", none, none⟩],
    segments := [],
    next_doc_id := 2, next_code_id := 2, next_seg_id := 1, clock := 0 }

/-- An uninterpreted stand-in for `hashlib.sha256(...).hexdigest()` used in
witnesses. -/
def hashEx : List Char → String := fun l => toString l.length

/-- C5: a call to `insert_segment` with `start < 0`, or `end <= start`, or
text that is blank after trimming, fails with one of the two validation
`ValueError`s and leaves the stored state completely unchanged — the checks
run before any database access. -/
theorem insert_segment_validation (db : DB) (document_id code_id : Nat)
    (start end_ : Int) (selected_text : List Char)
    (h : start < 0 ∨ end_ ≤ start ∨ pyStrip selected_text = []) :
    ∃ err : SegError,
      insert_segment db document_id code_id start end_ selected_text = (.error err, db)
      ∧ (err = .invalidRange start end_ ∨ err = .emptyText) := by
  unfold insert_segment
  by_cases h1 : start < 0 ∨ end_ ≤ start
  · exact ⟨.invalidRange start end_, by simp [h1], Or.inl rfl⟩
  · have h2 : pyStrip selected_text = [] := by tauto
    exact ⟨.emptyText, by simp [h1, h2], Or.inr rfl⟩

/-- Witness for C5 at a concrete input: inverted offsets on the one-document
store are rejected with the range error and the store is unchanged. -/
theorem insert_segment_validation_witness :
    ∃ err : SegError,
      insert_segment oneDocDB 1 1 (-1) 2 "x".data = (.error err, oneDocDB)
      ∧ (err = .invalidRange (-1) 2 ∨ err = .emptyText) :=
  insert_segment_validation oneDocDB 1 1 (-1) 2 "x".data (by decide)

/-- C6: a call to `insert_segment` that passes validation but references a
missing document or code fails with the `ValueError` naming exactly the
missing reference (document checked first), and no segment row is written —
the store is unchanged. -/
theorem insert_segment_not_found (db : DB) (document_id code_id : Nat)
    (start end_ : Int) (selected_text : List Char)
    (hs : 0 ≤ start) (he : start < end_) (ht : pyStrip selected_text ≠ [])
    (hmiss : (db.documents.find? (fun r => r.id == document_id)).isNone
      ∨ (db.codes.find? (fun r => r.id == code_id)).isNone) :
    ∃ err : SegError,
      insert_segment db document_id code_id start end_ selected_text = (.error err, db)
      ∧ ((err = .documentNotFound document_id
            ∧ (db.documents.find? (fun r => r.id == document_id)).isNone = true)
         ∨ (err = .codeNotFound code_id
            ∧ (db.documents.find? (fun r => r.id == document_id)).isNone = false
            ∧ (db.codes.find? (fun r => r.id == code_id)).isNone = true))
      ∧ (err.message = "Document " ++ toString document_id ++ " not found"
         ∨ err.message = "Code " ++ toString code_id ++ " not found") := by
  have h1 : ¬(start < 0 ∨ end_ ≤ start) := by omega
  unfold insert_segment
  by_cases hdoc : (db.documents.find? (fun r => r.id == document_id)).isNone
  · exact ⟨.documentNotFound document_id, by simp [h1, ht, hdoc],
      Or.inl ⟨rfl, hdoc⟩, Or.inl rfl⟩
  · have hcode : (db.codes.find? (fun r => r.id == code_id)).isNone := by tauto
    refine ⟨.codeNotFound code_id, by simp [h1, ht, hdoc, hcode],
      Or.inr ⟨rfl, ?_, hcode⟩, Or.inr rfl⟩
    simpa using hdoc

/-- Witness for C6 at a concrete input: inserting against the empty store
fails with `Document 1 not found` and writes nothing. -/
theorem insert_segment_not_found_witness :
    ∃ err : SegError,
      insert_segment emptyDB 1 1 0 2 "he".data = (.error err, emptyDB)
      ∧ ((err = .documentNotFound 1
            ∧ ((emptyDB).documents.find? (fun r => r.id == 1)).isNone = true)
         ∨ (err = .codeNotFound 1
            ∧ ((emptyDB).documents.find? (fun r => r.id == 1)).isNone = false
            ∧ ((emptyDB).codes.find? (fun r => r.id == 1)).isNone = true))
      ∧ (err.message = "Document " ++ toString (1 : Nat) ++ " not found"
         ∨ err.message = "Code " ++ toString (1 : Nat) ++ " not found") :=
  insert_segment_not_found emptyDB 1 1 0 2 "he".data (by decide) (by decide)
    (by decide) (by decide)

/-- C9: an upload whose file exceeds the `MAX_FILE_SIZE` byte ceiling is
rejected by the upload/upsert path with the size-limit error before any write:
the returned store is exactly the input store, so no document row is created
or overwritten. -/
theorem handle_upload_too_large (hash : List Char → String) (db : DB)
    (filename : String) (file_size : Nat) (content : List Char)
    (h : MAX_FILE_SIZE < file_size) :
    handle_upload hash db filename file_size content
      = (.error (.fileTooLarge file_size MAX_FILE_SIZE), db) := by
  unfold handle_upload validate_file_size
  simp [h]

/-- Witness for C9 at a concrete input: a file one byte over the 50 MB
ceiling is rejected and the empty store stays empty. -/
theorem handle_upload_too_large_witness :
    handle_upload hashEx emptyDB "big.txt" (MAX_FILE_SIZE + 1) []
      = (.error (.fileTooLarge (MAX_FILE_SIZE + 1) MAX_FILE_SIZE), emptyDB) :=
  handle_upload_too_large hashEx emptyDB "big.txt" (MAX_FILE_SIZE + 1) []
    (by decide)

/-- C2: with valid inputs, an existing document and code, and the
`uniq_segment` constraint holding on the store (at most one row per exact
tuple), inserting the same `(document_id, code_id, start, end)` twice leaves
exactly one stored row for that tuple, both calls return the same segment id,
and the second call does not raise — the fired unique constraint is resolved
to the existing row's id. -/
theorem insert_segment_idempotent (db : DB) (document_id code_id : Nat)
    (start end_ : Int) (selected_text : List Char)
    (huniq : db.segments.countP (segKeyMatch document_id code_id start end_) ≤ 1)
    (hdoc : (db.documents.find? (fun r => r.id == document_id)).isSome)
    (hcode : (db.codes.find? (fun r => r.id == code_id)).isSome)
    (hs : 0 ≤ start) (he : start < end_) (ht : pyStrip selected_text ≠ []) :
    ∃ (i : Nat) (db1 : DB),
      insert_segment db document_id code_id start end_ selected_text = (.ok i, db1)
      ∧ insert_segment db1 document_id code_id start end_ selected_text = (.ok i, db1)
      ∧ db1.segments.countP (segKeyMatch document_id code_id start end_) = 1
      ∧ db1.documents = db.documents ∧ db1.codes = db.codes := by
  have h1 : ¬(start < 0 ∨ end_ ≤ start) := by omega
  obtain ⟨d, hd⟩ := Option.isSome_iff_exists.mp hdoc
  obtain ⟨c, hc⟩ := Option.isSome_iff_exists.mp hcode
  rcases hfind : db.segments.find? (segKeyMatch document_id code_id start end_)
    with _ | r
  · refine ⟨db.next_seg_id,
      { db with
          segments := db.segments
            ++ [⟨db.next_seg_id, document_id, code_id, start, end_, selected_text,
                  db.clock⟩],
          next_seg_id := db.next_seg_id + 1,
          clock := db.clock + 1 }, ?_, ?_, ?_, rfl, rfl⟩
    · simp [insert_segment, h1, ht, hd, hc, hfind]
    · simp [insert_segment, h1, ht, hd, hc, List.find?_append, hfind, segKeyMatch]
    · rw [List.countP_append]
      have h0 : db.segments.countP (segKeyMatch document_id code_id start end_) = 0 :=
        List.countP_eq_zero.mpr (List.find?_eq_none.mp hfind)
      simp [h0, segKeyMatch]
  · have hmem : r ∈ db.segments := List.mem_of_find?_eq_some hfind
    have hpred : segKeyMatch document_id code_id start end_ r = true :=
      List.find?_some hfind
    refine ⟨r.id, db, ?_, ?_, ?_, rfl, rfl⟩
    · simp [insert_segment, h1, ht, hd, hc, hfind]
    · simp [insert_segment, h1, ht, hd, hc, hfind]
    · have hpos : 0 < db.segments.countP (segKeyMatch document_id code_id start end_) :=
        List.countP_pos_iff.mpr ⟨r, hmem, hpred⟩
      omega

/-- Witness for C2 at a concrete input: inserting the segment `(0, 5)` twice
into the one-document store yields id 1 both times and exactly one row. -/
theorem insert_segment_idempotent_witness :
    ∃ (i : Nat) (db1 : DB),
      insert_segment oneDocDB 1 1 0 5 "hello".data = (.ok i, db1)
      ∧ insert_segment db1 1 1 0 5 "hello".data = (.ok i, db1)
      ∧ db1.segments.countP (segKeyMatch 1 1 0 5) = 1
      ∧ db1.documents = oneDocDB.documents ∧ db1.codes = oneDocDB.codes :=
  insert_segment_idempotent oneDocDB 1 1 0 5 "hello".data (by decide) (by decide)
    (by decide) (by decide) (by decide) (by decide)

/-! Helper lemmas for the `upsert_document` claims. -/

/-- Number of stored rows for a filename (the `uniq_filename` key makes this
at most one on any state the schema admits). -/
def filenameCount (db : DB) (f : String) : Nat :=
  db.documents.countP (fun r => r.filename == f)

theorem overwriteDoc_filename (hash : List Char → String) (f : String)
    (c : List Char) (r : DocRow) : (overwriteDoc hash f c r).filename = r.filename := by
  unfold overwriteDoc
  split <;> rfl

theorem overwriteDoc_id (hash : List Char → String) (f : String)
    (c : List Char) (r : DocRow) : (overwriteDoc hash f c r).id = r.id := by
  unfold overwriteDoc
  split <;> rfl

/-- In a list where at most one element satisfies `p`, any two members
satisfying `p` are equal. -/
theorem countP_le_one_unique {α : Type} (p : α → Bool) (l : List α)
    (h : l.countP p ≤ 1) :
    ∀ a ∈ l, ∀ b ∈ l, p a → p b → a = b := by
  induction l with
  | nil => intro a ha; cases ha
  | cons x xs ih =>
      intro a ha b hb hpa hpb
      rw [List.countP_cons] at h
      rcases List.mem_cons.mp ha with rfl | ha'
      · rcases List.mem_cons.mp hb with rfl | hb'
        · rfl
        · exfalso
          have h1 : 0 < xs.countP p := List.countP_pos_iff.mpr ⟨b, hb', hpb⟩
          rw [if_pos hpa] at h
          omega
      · rcases List.mem_cons.mp hb with rfl | hb'
        · exfalso
          have h1 : 0 < xs.countP p := List.countP_pos_iff.mpr ⟨a, ha', hpa⟩
          rw [if_pos hpb] at h
          omega
        · have hx : xs.countP p ≤ 1 := by
            by_cases hpx : p x = true
            · rw [if_pos hpx] at h; omega
            · rw [if_neg hpx] at h; omega
          exact ih hx a ha' b hb' hpa hpb

/-- The filename predicate is invariant under the duplicate-key update. -/
theorem filenamePred_comp (hash : List Char → String) (f : String)
    (c : List Char) :
    ((fun r : DocRow => r.filename == f) ∘ overwriteDoc hash f c)
      = (fun r : DocRow => r.filename == f) :=
  funext fun r => by simp [Function.comp, overwriteDoc_filename]

theorem find?_overwriteDoc (hash : List Char → String) (f : String)
    (c : List Char) (l : List DocRow) :
    (l.map (overwriteDoc hash f c)).find? (fun r => r.filename == f)
      = (l.find? (fun r => r.filename == f)).map (overwriteDoc hash f c) := by
  rw [List.find?_map, filenamePred_comp]

/-- Postcondition of one `upsert_document` call on a state respecting the
`uniq_filename` key: afterwards exactly one row holds the filename, and that
row carries the returned id and the freshly written content, fingerprint and
size fields. -/
theorem upsert_document_post (hash : List Char → String) (db : DB) (f : String)
    (c : List Char) (huniq : filenameCount db f ≤ 1) :
    filenameCount (upsert_document hash db f c).2 f = 1
    ∧ ∀ r ∈ (upsert_document hash db f c).2.documents, r.filename = f →
        r.id = (upsert_document hash db f c).1 ∧ r.content = c
        ∧ r.content_hash = hash c ∧ r.file_size = utf8Len c
        ∧ r.char_count = c.length := by
  rcases hfind : db.documents.find? (fun r => r.filename == f) with _ | r0
  · have h0 : db.documents.countP (fun r => r.filename == f) = 0 :=
      List.countP_eq_zero.mpr (List.find?_eq_none.mp hfind)
    constructor
    · simp [upsert_document, hfind, filenameCount, List.countP_append, h0]
    · intro r hr hrf
      simp only [upsert_document, hfind, List.mem_append, List.mem_singleton] at hr
      rcases hr with hr' | rfl
      · exact absurd (by simpa using hrf) (List.find?_eq_none.mp hfind r hr')
      · simp [upsert_document, hfind]
  · have hpred := List.find?_some hfind
    have hmem : r0 ∈ db.documents := List.mem_of_find?_eq_some hfind
    have huniq' : db.documents.countP (fun r => r.filename == f) ≤ 1 := huniq
    have hres : (upsert_document hash db f c).1 = r0.id := by
      simp [upsert_document, hfind, filenamePred_comp, overwriteDoc_id,
        Function.comp]
    constructor
    · have hcnt : (db.documents.map (overwriteDoc hash f c)).countP
          (fun r => r.filename == f) = db.documents.countP (fun r => r.filename == f) := by
        rw [List.countP_map]
        congr 1
        funext r
        simp [Function.comp, overwriteDoc_filename]
      have hpos : 0 < db.documents.countP (fun r => r.filename == f) :=
        List.countP_pos_iff.mpr ⟨r0, hmem, hpred⟩
      have : db.documents.countP (fun r => r.filename == f) = 1 := by
        unfold filenameCount at huniq
        omega
      simp [upsert_document, hfind, filenameCount, hcnt, this]
    · intro r hr hrf
      simp only [upsert_document, hfind, List.mem_map] at hr
      obtain ⟨r', hr'm, rfl⟩ := hr
      have hr'f : (r'.filename == f) = true := by
        have := overwriteDoc_filename hash f c r'
        rw [beq_iff_eq, ← this, hrf]
      have hr0 : r' = r0 :=
        countP_le_one_unique (fun r => r.filename == f) db.documents huniq'
          r' hr'm r0 hmem hr'f hpred
      rw [hres]
      subst hr0
      simp [overwriteDoc, hr'f, overwriteDoc_id]

/-- When a row with the filename already exists (under `uniq_filename`),
`upsert_document` returns that row's id. -/
theorem upsert_document_id_of_existing (hash : List Char → String) (db : DB)
    (f : String) (c : List Char) (huniq : filenameCount db f ≤ 1)
    (r0 : DocRow) (h0 : r0 ∈ db.documents) (hf : r0.filename = f) :
    (upsert_document hash db f c).1 = r0.id := by
  rcases hfind : db.documents.find? (fun r => r.filename == f) with _ | r1
  · exact absurd (by simpa using hf) (List.find?_eq_none.mp hfind r0 h0)
  · have hpred := List.find?_some hfind
    have hmem : r1 ∈ db.documents := List.mem_of_find?_eq_some hfind
    have huniq' : db.documents.countP (fun r => r.filename == f) ≤ 1 := huniq
    have h01 : r0 = r1 :=
      countP_le_one_unique (fun r => r.filename == f) db.documents huniq'
        r0 h0 r1 hmem (by simpa using hf) hpred
    subst h01
    simp [upsert_document, hfind, filenamePred_comp, overwriteDoc_id,
      Function.comp]

/-- C3: starting from a state respecting the `uniq_filename` key, upserting a
filename twice (with any contents) returns the same document id both times,
leaves exactly one row for the filename, and that row holds the latest
content, fingerprint and size fields — the overwrite happens in place and no
duplicate row is ever created. -/
theorem upsert_document_stable_id (hash : List Char → String) (db : DB)
    (f : String) (c1 c2 : List Char) (huniq : filenameCount db f ≤ 1) :
    (upsert_document hash (upsert_document hash db f c1).2 f c2).1
      = (upsert_document hash db f c1).1
    ∧ filenameCount (upsert_document hash (upsert_document hash db f c1).2 f c2).2 f = 1
    ∧ ∀ r ∈ (upsert_document hash (upsert_document hash db f c1).2 f c2).2.documents,
        r.filename = f →
          r.id = (upsert_document hash db f c1).1 ∧ r.content = c2
          ∧ r.content_hash = hash c2 ∧ r.file_size = utf8Len c2
          ∧ r.char_count = c2.length := by
  obtain ⟨hcnt1, hrows1⟩ := upsert_document_post hash db f c1 huniq
  have huniq1 : filenameCount (upsert_document hash db f c1).2 f ≤ 1 := by omega
  obtain ⟨r1, hr1m, hr1p⟩ := List.countP_pos_iff.mp
    (show 0 < ((upsert_document hash db f c1).2).documents.countP
        (fun r => r.filename == f) by
      have := hcnt1
      unfold filenameCount at this
      omega)
  have hid2 : (upsert_document hash (upsert_document hash db f c1).2 f c2).1 = r1.id :=
    upsert_document_id_of_existing hash _ f c2 huniq1 r1 hr1m (by simpa using hr1p)
  have hr1id : r1.id = (upsert_document hash db f c1).1 :=
    (hrows1 r1 hr1m (by simpa using hr1p)).1
  obtain ⟨hcnt2, hrows2⟩ :=
    upsert_document_post hash (upsert_document hash db f c1).2 f c2 huniq1
  refine ⟨by rw [hid2, hr1id], hcnt2, ?_⟩
  intro r hr hrf
  obtain ⟨ha, hb⟩ := hrows2 r hr hrf
  exact ⟨by rw [ha, hid2, hr1id], hb⟩

/-- Witness for C3 at a concrete input: upserting `"a.txt"` twice into the
empty store returns id 1 both times and leaves one row holding the second
content. -/
theorem upsert_document_stable_id_witness :
    (upsert_document hashEx (upsert_document hashEx emptyDB "a.txt" "x".data).2
        "a.txt" "yz".data).1
      = (upsert_document hashEx emptyDB "a.txt" "x".data).1
    ∧ filenameCount
        (upsert_document hashEx (upsert_document hashEx emptyDB "a.txt" "x".data).2
          "a.txt" "yz".data).2 "a.txt" = 1
    ∧ ∀ r ∈ (upsert_document hashEx
          (upsert_document hashEx emptyDB "a.txt" "x".data).2 "a.txt" "yz".data).2.documents,
        r.filename = "a.txt" →
          r.id = (upsert_document hashEx emptyDB "a.txt" "x".data).1
          ∧ r.content = "yz".data ∧ r.content_hash = hashEx "yz".data
          ∧ r.file_size = utf8Len "yz".data ∧ r.char_count = ("yz".data).length :=
  upsert_document_stable_id hashEx emptyDB "a.txt" "x".data "yz".data (by decide)

/-- A document one character longer than the preview threshold. -/
def bigDoc : DocRow :=
  ⟨1, "big.txt", List.replicate (MAX_PREVIEW_SIZE + 1) 'a', "h",
    MAX_PREVIEW_SIZE + 1, MAX_PREVIEW_SIZE + 1⟩

/-- A store holding only `bigDoc`. -/
def bigDB : DB :=
  { documents := [bigDoc], codes := [], segments := [],
    next_doc_id := 2, next_code_id := 1, next_seg_id := 1, clock := 0 }

/-- C4 counterexample: for a document exceeding the preview threshold,
the display text returned by `get_text_for_display` is NOT no longer than the
threshold — the code appends a fixed truncation notice after the
threshold-length prefix, so the returned text is longer. -/
theorem get_text_for_display_exceeds_threshold :
    ¬ ((get_text_for_display bigDB 1).1.length ≤ MAX_PREVIEW_SIZE) := by
  have hdoc : get_document bigDB 1 = some bigDoc := rfl
  have hprev : get_document_preview bigDB 1 MAX_PREVIEW_SIZE
      = bigDoc.content.take MAX_PREVIEW_SIZE := rfl
  have hlen : bigDoc.content.length = MAX_PREVIEW_SIZE + 1 := by
    simp [bigDoc]
  have hnotice : truncationNotice.length = 78 := by decide
  simp only [get_text_for_display, hdoc, hlen]
  rw [if_neg (by omega), hprev]
  simp only [List.length_append, hnotice, List.length_take, hlen]
  omega

/-- C4 amended: for a document exceeding the preview threshold, the display
text is the threshold-length prefix of the document followed by the fixed
truncation notice (the document excerpt itself never exceeds the threshold),
the result is flagged as preview, and while the flag is set every
segment-insert attempt through `_apply_code` fails with the preview-mode
error before any validation or insert — the store is unchanged. -/
theorem preview_flag_blocks_insert (db : DB) (doc_id : Nat) (doc : DocRow)
    (hdoc : get_document db doc_id = some doc)
    (hbig : MAX_PREVIEW_SIZE < doc.content.length) :
    (get_text_for_display db doc_id).2 = true
    ∧ (get_text_for_display db doc_id).1
        = doc.content.take MAX_PREVIEW_SIZE ++ truncationNotice
    ∧ (doc.content.take MAX_PREVIEW_SIZE).length ≤ MAX_PREVIEW_SIZE
    ∧ ∀ (sel : Selection) (code_id doc_id2 : Nat),
        apply_code db (some sel) (some code_id) (some doc_id2) true
          = (.failed "Cannot code segments in preview mode. Please use smaller documents.",
             db) := by
  have hprev : get_document_preview db doc_id MAX_PREVIEW_SIZE
      = doc.content.take MAX_PREVIEW_SIZE := by
    unfold get_document at hdoc
    unfold get_document_preview
    rw [hdoc]
  simp only [get_text_for_display, hdoc]
  rw [if_neg (by omega), hprev]
  refine ⟨rfl, rfl, ?_, ?_⟩
  · simp only [List.length_take]
    omega
  · intro sel code_id doc_id2
    rfl

/-- Witness for the amended C4 at a concrete input: the store with the
`MAX_PREVIEW_SIZE + 1`-character document. -/
theorem preview_flag_blocks_insert_witness :
    (get_text_for_display bigDB 1).2 = true
    ∧ (get_text_for_display bigDB 1).1
        = bigDoc.content.take MAX_PREVIEW_SIZE ++ truncationNotice
    ∧ (bigDoc.content.take MAX_PREVIEW_SIZE).length ≤ MAX_PREVIEW_SIZE
    ∧ ∀ (sel : Selection) (code_id doc_id2 : Nat),
        apply_code bigDB (some sel) (some code_id) (some doc_id2) true
          = (.failed "Cannot code segments in preview mode. Please use smaller documents.",
             bigDB) :=
  preview_flag_blocks_insert bigDB 1 bigDoc rfl
    (by simp [bigDoc])

/-- The `created_at` timestamps of the stored segment rows strictly increase
along the storage (insertion) order: every insert stamps a fresh, later tick
(`insert_segment` appends with the current clock and advances it). -/
def clockOrdered (db : DB) : Prop :=
  db.segments.Pairwise (fun a b => a.created_at < b.created_at)

/-- `joinRow` preserves the `created_at` stamp of the segment row. -/
theorem joinRow_created_at (codes : List CodeRow) (s : SegRow) (v : SegView)
    (h : joinRow codes s = some v) : v.created_at = s.created_at := by
  unfold joinRow at h
  obtain ⟨c, _, rfl⟩ := Option.map_eq_some'.mp h
  rfl

/-- A store with two segments of one document sharing their `start_offset`
AND their `created_at` stamp: the schema's `TIMESTAMP DEFAULT
CURRENT_TIMESTAMP` has second granularity, so two inserts within the same
second produce exactly such tied stamps.  Segment 1 was inserted first
(storage and auto-increment order). -/
def tieDB : DB :=
  { documents := [⟨1, "a.txt", "hello".data, "h", 5, 5⟩],
    codes := [⟨1, "Theme", none, none⟩],
    segments := [⟨1, 1, 1, 0, 5, "hello".data, 7⟩,
                 ⟨2, 1, 1, 0, 3, "hel".data, 7⟩],
    next_doc_id := 2, next_code_id := 2, next_seg_id := 3, clock := 8 }

/-- The joined view of `tieDB`'s first-inserted segment. -/
def tieView1 : SegView := ⟨1, 1, 1, 0, 5, "hello".data, 7, "Theme", none⟩

/-- The joined view of `tieDB`'s second-inserted segment. -/
def tieView2 : SegView := ⟨2, 1, 1, 0, 3, "hel".data, 7, "Theme", none⟩

/-- C7 counterexample: on a store where two same-start segments carry the same
second-granularity `created_at` stamp, the result list that puts the
second-inserted segment first satisfies everything the query's
`ORDER BY start_offset ASC, created_at ASC` guarantees — so the program may
return the document's equal-start segments out of creation (insertion) order,
and the claim's tie-break guarantee does not hold of the code. -/
theorem list_segments_tie_order_unspecified :
    list_segments_spec tieDB 1 [tieView2, tieView1]
    ∧ tieView1.start_offset = tieView2.start_offset
    ∧ tieView1.created_at = tieView2.created_at
    ∧ tieDB.segments.map (fun s => s.id) = [1, 2]
    ∧ [tieView2, tieView1].map (fun v => v.id) = [2, 1] := by
  refine ⟨⟨by decide, by decide⟩, by decide, by decide, by decide, by decide⟩

/-- C7 amended: every result list admissible under the query's `ORDER BY`
contract is sorted by `start_offset` ascending and resolves each returned
segment's code display name (and color); ties on `start_offset` are ordered
by ascending `created_at`, which coincides with creation (insertion) order
exactly when the stored stamps are strictly increasing along storage order
(distinct timestamps) — when stamps tie, the relative order is unspecified.
The executable `list_segments` realizes one admissible result. -/
theorem list_segments_order_contract (db : DB) (document_id : Nat)
    (out : List SegView) (hout : list_segments_spec db document_id out) :
    out.Pairwise (fun a b => a.start_offset ≤ b.start_offset)
    ∧ (∀ v ∈ out,
        v.document_id = document_id
        ∧ ∃ c ∈ db.codes, c.id = v.code_id ∧ v.code_name = c.name
            ∧ v.code_color = c.color)
    ∧ (clockOrdered db → out.Pairwise
        (fun a b => a.start_offset < b.start_offset
          ∨ (a.start_offset = b.start_offset ∧ a.created_at < b.created_at)))
    ∧ list_segments_spec db document_id (list_segments db document_id) := by
  obtain ⟨hperm, hsorted⟩ := hout
  refine ⟨?_, ?_, ?_, ?_, ?_⟩
  · refine hsorted.imp ?_
    intro a b hab
    unfold viewRel at hab
    omega
  · intro v hv
    have hv' : v ∈ (db.segments.filter
        (fun s => s.document_id == document_id)).filterMap (joinRow db.codes) :=
      hperm.mem_iff.mp hv
    obtain ⟨s, hsmem, hjoin⟩ := List.mem_filterMap.mp hv'
    obtain ⟨hsseg, hsdoc⟩ := List.mem_filter.mp hsmem
    unfold joinRow at hjoin
    obtain ⟨c, hcfind, rfl⟩ := Option.map_eq_some'.mp hjoin
    have hcmem : c ∈ db.codes := List.mem_of_find?_eq_some hcfind
    have hcid := List.find?_some hcfind
    refine ⟨by simpa using hsdoc, c, hcmem, by simpa using hcid, rfl, rfl⟩
  · intro hclock
    have hdistinct : ((db.segments.filter
        (fun s => s.document_id == document_id)).filterMap
          (joinRow db.codes)).Pairwise (fun v w => v.created_at < w.created_at) := by
      refine List.Pairwise.filterMap (joinRow db.codes) ?_
        (hclock.filter (fun s => s.document_id == document_id))
      intro a a' h b hb b' hb'
      rw [Option.mem_def] at hb hb'
      rw [joinRow_created_at db.codes a b hb, joinRow_created_at db.codes a' b' hb']
      exact h
    have hne : out.Pairwise (fun v w => v.created_at ≠ w.created_at) := by
      have hd := hdistinct.imp (fun h => Nat.ne_of_lt h)
      exact (hperm.pairwise_iff (fun h => Ne.symm h)).mpr hd
    refine (hsorted.and hne).imp ?_
    intro a b hab
    obtain ⟨hr, hne'⟩ := hab
    unfold viewRel at hr
    omega
  · exact List.perm_insertionSort viewRel _
  · exact List.sorted_insertionSort viewRel _

/-- A store with three segments of one document sharing two codes, two of
them starting at the same offset, timestamps distinct and in insertion
order. -/
def segsDB : DB :=
  { documents := [⟨1, "a.txt", "hello world".data, "h", 11, 11⟩],
    codes := [⟨1, "Theme", none, none⟩, ⟨2, "Question", none, none⟩],
    segments := [⟨1, 1, 1, 6, 11, "world".data, 0⟩,
                 ⟨2, 1, 2, 0, 5, "hello".data, 1⟩,
                 ⟨3, 1, 1, 0, 3, "hel".data, 2⟩],
    next_doc_id := 2, next_code_id := 3, next_seg_id := 4, clock := 3 }

/-- Witness for the amended C7 at a concrete input: the executable query
result on a store with distinct timestamps. -/
theorem list_segments_order_contract_witness :
    (list_segments segsDB 1).Pairwise (fun a b => a.start_offset ≤ b.start_offset)
    ∧ (∀ v ∈ list_segments segsDB 1,
        v.document_id = 1
        ∧ ∃ c ∈ segsDB.codes, c.id = v.code_id ∧ v.code_name = c.name
            ∧ v.code_color = c.color)
    ∧ (clockOrdered segsDB → (list_segments segsDB 1).Pairwise
        (fun a b => a.start_offset < b.start_offset
          ∨ (a.start_offset = b.start_offset ∧ a.created_at < b.created_at)))
    ∧ list_segments_spec segsDB 1 (list_segments segsDB 1) :=
  list_segments_order_contract segsDB 1 (list_segments segsDB 1)
    ⟨by decide, by decide⟩

end RQDA
